import Mathlib

/-!
Verification of the CVMFS catalog-visualization tree builder.

The development shallowly embeds the two modules that the claims concern:

* `tree_builder.py` — the `CatalogNode` data type and its pure tree
  operations (`to_dict`, `from_dict`, `find_or_create_child`,
  `build_lookup`, `count_nodes`, `recalculate_tree`);
* `async_tree_builder.py` — the `AsyncCatalogTreeBuilder` crawl engine
  (`build`, `_process_single_ref`, `_insert_at_path`, `_graft_at_path`,
  `_get_path_segments`, `_get_catalog_size`, `_should_ignore`).

Python's mutable object graph is embedded functionally: a method that
mutates a node in place becomes a function returning the updated node,
and the Python work queue drained by asyncio workers is embedded as a
sequential depth-first interpreter over an abstract repository, with an
explicit fuel bound in place of unbounded recursion and an event log
recording every network interaction (catalog fetches and size probes).
Machine integers do not occur: Python integers are unbounded, so sizes
and costs are `Int` and counters are `Nat`.
-/

/-- `CatalogNode` from `tree_builder.py`: one node of the catalog
hierarchy tree, with the same nine fields as the Python dataclass. -/
inductive CatalogNode where
  | mk (path : String) (hash : String) (size_bytes : Int) (cumulative_cost : Int)
       (depth : Nat) (children : List CatalogNode) (is_large : Bool)
       (is_root : Bool) (is_virtual : Bool)

def CatalogNode.path : CatalogNode → String
  | .mk p _ _ _ _ _ _ _ _ => p

def CatalogNode.hash : CatalogNode → String
  | .mk _ h _ _ _ _ _ _ _ => h

def CatalogNode.size_bytes : CatalogNode → Int
  | .mk _ _ sb _ _ _ _ _ _ => sb

def CatalogNode.cumulative_cost : CatalogNode → Int
  | .mk _ _ _ cc _ _ _ _ _ => cc

def CatalogNode.depth : CatalogNode → Nat
  | .mk _ _ _ _ d _ _ _ _ => d

def CatalogNode.children : CatalogNode → List CatalogNode
  | .mk _ _ _ _ _ cs _ _ _ => cs

def CatalogNode.is_large : CatalogNode → Bool
  | .mk _ _ _ _ _ _ il _ _ => il

def CatalogNode.is_root : CatalogNode → Bool
  | .mk _ _ _ _ _ _ _ ir _ => ir

def CatalogNode.is_virtual : CatalogNode → Bool
  | .mk _ _ _ _ _ _ _ _ iv => iv

/-- Replace the children list of a node (used to embed Python's in-place
mutation of `node.children`). -/
def CatalogNode.withChildren : CatalogNode → List CatalogNode → CatalogNode
  | .mk p h sb cc d _ il ir iv, cs => .mk p h sb cc d cs il ir iv

/-! `count_nodes` from `tree_builder.py`: number of non-virtual nodes in a
subtree.  The Python version walks an explicit stack; the sum it computes
is order-independent, so the embedding is the direct recursion. -/
mutual
def count_nodes : CatalogNode → Nat
  | .mk _ _ _ _ _ cs _ _ iv => (if iv then 0 else 1) + count_nodes_list cs
def count_nodes_list : List CatalogNode → Nat
  | [] => 0
  | c :: cs => count_nodes c + count_nodes_list cs
end

/-! `recalculate_tree` from `tree_builder.py`, in parent-context form.
The Python version walks the tree top-down with an explicit stack and
overwrites `depth` and `cumulative_cost` in place from the parent's
already-updated values; here the updated parent values are passed down
as the context `pc` (`none` for the root). -/
mutual
def recalc_node (pc : Option (Nat × Int)) : CatalogNode → CatalogNode
  | .mk p h sb _ _ cs il ir iv =>
    match pc with
    | none => .mk p h sb sb 0 (recalc_children 0 sb cs) il ir iv
    | some (pd, pcost) =>
        .mk p h sb (pcost + sb) (pd + 1)
          (recalc_children (pd + 1) (pcost + sb) cs) il ir iv
def recalc_children (pd : Nat) (pcost : Int) : List CatalogNode → List CatalogNode
  | [] => []
  | c :: cs => recalc_node (some (pd, pcost)) c :: recalc_children pd pcost cs
end

/-- `recalculate_tree(root)`: fix `cumulative_cost` and `depth` for all
nodes top-down, the root getting depth 0 and cost equal to its own size. -/
def recalculate_tree (root : CatalogNode) : CatalogNode :=
  recalc_node none root

/-- Structural induction principle for `CatalogNode` giving the induction
hypothesis for every member of the children list. -/
theorem catalogNode_ind (P : CatalogNode → Prop)
    (step : ∀ p h sb cc d cs il ir iv, (∀ c ∈ cs, P c) → P (.mk p h sb cc d cs il ir iv)) :
    ∀ t, P t := fun t =>
  match t with
  | .mk p h sb cc d cs il ir iv =>
    step p h sb cc d cs il ir iv (fun c hc => catalogNode_ind P step c)
termination_by t => sizeOf t
decreasing_by
  simp only [CatalogNode.mk.sizeOf_spec]
  have := List.sizeOf_lt_of_mem hc
  omega

/-! ### String helpers

Python string operations used by the builder (`startswith`, slicing by
`len`, `split("/")`), embedded at the character-list level so every
operation is structurally recursive and kernel-computable. -/

/-- Python `s.startswith(p)`. -/
def str_starts_with (s p : String) : Bool :=
  p.data.isPrefixOf s.data

/-- Python `s[n:]` (drop the first `n` characters). -/
def str_drop (s : String) (n : Nat) : String :=
  ⟨s.data.drop n⟩

/-- Python `len(s)`. -/
def str_len (s : String) : Nat :=
  s.data.length

/-- Python `s.split("/")` on the character list: always returns at least
one (possibly empty) piece, and empty pieces between adjacent slashes. -/
def split_on_slash_chars : List Char → List (List Char)
  | [] => [[]]
  | c :: cs =>
    let r := split_on_slash_chars cs
    if c = '/' then [] :: r
    else
      match r with
      | [] => [[c]]
      | h :: t => (c :: h) :: t

/-- Python `s.split("/")`. -/
def split_on_slash (s : String) : List String :=
  (split_on_slash_chars s.data).map (fun l => ⟨l⟩)

/-- Python dict lookup `d.get(k)` over an association list kept in
insertion order: a later binding of the same key overwrites an earlier
one, so the last matching entry wins. -/
def dict_get {α : Type} : List (String × α) → String → Option α
  | [], _ => none
  | (k, v) :: rest, q =>
    match dict_get rest q with
    | some r => some r
    | none => if k = q then some v else none

/-! ### `build_lookup` (tree_builder.py) -/

mutual
def tree_weight : CatalogNode → Nat
  | .mk _ _ _ _ _ cs _ _ _ => 1 + forest_weight cs
def forest_weight : List CatalogNode → Nat
  | [] => 0
  | c :: cs => tree_weight c + forest_weight cs
end

theorem forest_weight_append (l₁ l₂ : List CatalogNode) :
    forest_weight (l₁ ++ l₂) = forest_weight l₁ + forest_weight l₂ := by
  induction l₁ with
  | nil => simp [forest_weight]
  | cons c cs ih => simp [forest_weight, ih]; omega

theorem tree_weight_children (t : CatalogNode) :
    tree_weight t = 1 + forest_weight t.children := by
  cases t
  simp [tree_weight, CatalogNode.children]

/-- The breadth-first loop of `build_lookup`: pop the front node, record
it unless virtual, push its children at the back. -/
def bfs_lookup : List CatalogNode → List (String × CatalogNode)
  | [] => []
  | n :: rest =>
    if n.is_virtual then bfs_lookup (rest ++ n.children)
    else (n.path, n) :: bfs_lookup (rest ++ n.children)
termination_by l => forest_weight l
decreasing_by
  all_goals
    simp only [forest_weight_append, forest_weight, tree_weight_children]
    omega

/-- `build_lookup` from `tree_builder.py`: path→node map over the
non-virtual nodes of a tree, built breadth-first. -/
def build_lookup (node : CatalogNode) : List (String × CatalogNode) :=
  bfs_lookup [node]

/-! ### `find_or_create_child` (tree_builder.py) -/

/-- The per-child test of `find_or_create_child`: the child sits exactly
at `full_path`, or `full_path` lies inside the child's subtree. -/
def matches_segment (child : CatalogNode) (full_path : String) : Bool :=
  child.path = full_path || str_starts_with full_path (child.path ++ "/")

/-- The `for child in self.children` search loop of
`find_or_create_child`, returning the index of the first matching
child. -/
def find_matching_idx (full_path : String) : List CatalogNode → Option Nat
  | [] => none
  | c :: cs =>
    if matches_segment c full_path then some 0
    else (find_matching_idx full_path cs).map (· + 1)

/-- `CatalogNode.find_or_create_child` from `tree_builder.py`.  The
Python method returns the found or freshly appended child object; since
callers go on to mutate that child in place, the embedding returns the
updated parent together with the child's index in its children list. -/
def find_or_create_child (self : CatalogNode) (_path_segment : String)
    (full_path : String) (depth : Nat) : CatalogNode × Nat :=
  match find_matching_idx full_path self.children with
  | some i => (self, i)
  | none =>
    let virt : CatalogNode :=
      .mk full_path "" 0 self.cumulative_cost depth [] false false true
    (self.withChildren (self.children ++ [virt]), self.children.length)

/-! ### `_get_path_segments` (async_tree_builder.py) -/

/-- The accumulation loop of `_get_path_segments`: starting from the
(normalized) parent path, extend by one part at a time, collecting every
intermediate absolute path. -/
def path_segments_go : String → List String → List String
  | _, [] => []
  | current, part :: rest =>
    let cur := if current.data = [] then "/" ++ part else current ++ "/" ++ part
    cur :: path_segments_go cur rest

/-- `AsyncCatalogTreeBuilder._get_path_segments`: the ordered list of
intermediate absolute paths between `parent_path` (exclusive) and
`child_path` (inclusive). -/
def get_path_segments (parent_path child_path : String) : List String :=
  let pp := if parent_path = "/" then "" else parent_path
  if str_starts_with child_path pp = false then [child_path]
  else
    let rel := str_drop child_path (str_len pp)
    let rel2 := if str_starts_with rel "/" then str_drop rel 1 else rel
    path_segments_go pp (split_on_slash rel2)

/-! ### Attaching a node at a resolved path

`_insert_at_path` and `_graft_at_path` share their walking structure:
descend through the non-final segments with `find_or_create_child`
(mutating the tree in place when a virtual node is created) and place a
node at the final segment.  `_insert_at_path` constructs the new node
from the resolved parent's current `depth`/`cumulative_cost`;
`_graft_at_path` appends an already-built subtree.  The walk is embedded
once, parameterized by the maker of the final node. -/

/-- `seg_path.split("/")[-1]`: the last path segment, passed by the
callers of `find_or_create_child` as the (unused) `path_segment`
argument. -/
def dropTrailing (s : String) : String :=
  match (split_on_slash s).getLast? with
  | some l => l
  | none => s

def attach_walk (current : CatalogNode) (segments : List String)
    (mk_final : CatalogNode → CatalogNode) : CatalogNode × CatalogNode :=
  match segments with
  | [] => (current, current)
  | [_last] =>
    let child := mk_final current
    (current.withChildren (current.children ++ [child]), child)
  | seg :: rest₁ :: rest₂ =>
    let fc := find_or_create_child current (dropTrailing seg) seg (current.depth + 1)
    match fc.1.children.get? fc.2 with
    | some c =>
      let rec_result := attach_walk c (rest₁ :: rest₂) mk_final
      (fc.1.withChildren (fc.1.children.set fc.2 rec_result.1), rec_result.2)
    | none => (fc.1, fc.1)

/-- `AsyncCatalogTreeBuilder._insert_at_path`: create a real node for a
discovered reference at the resolved location, synthesizing virtual
intermediate nodes on the way.  Returns the updated tree together with
the created child (the Python method returns the child object, which the
caller continues to mutate in place). -/
def insert_at_path (root_node : CatalogNode) (parent_path catalog_path catalog_hash : String)
    (catalog_size : Int) (is_large : Bool) : CatalogNode × CatalogNode :=
  attach_walk root_node (get_path_segments parent_path catalog_path)
    (fun cur =>
      .mk catalog_path catalog_hash catalog_size (cur.cumulative_cost + catalog_size)
        (cur.depth + 1) [] is_large false false)

/-- `AsyncCatalogTreeBuilder._graft_at_path`: like `_insert_at_path` but
appends the cached node (with all of its children) instead of creating a
new node. -/
def graft_at_path (root_node : CatalogNode) (parent_path : String)
    (cached_node : CatalogNode) : CatalogNode × CatalogNode :=
  attach_walk root_node (get_path_segments parent_path cached_node.path)
    (fun _ => cached_node)

/-- Re-walk the segments used by an insertion and replace the node that
was appended at the final segment (Python mutates the returned child
object in place; the embedding substitutes the mutated child at the
position where `attach_walk` appended it — the last slot of the resolved
parent's children list). -/
def replace_last_at (current : CatalogNode) (segments : List String)
    (newChild : CatalogNode) : CatalogNode :=
  match segments with
  | [] => current
  | [_last] =>
    current.withChildren (current.children.dropLast ++ [newChild])
  | seg :: rest₁ :: rest₂ =>
    match find_matching_idx seg current.children with
    | some i =>
      match current.children.get? i with
      | some c =>
        current.withChildren
          (current.children.set i (replace_last_at c (rest₁ :: rest₂) newChild))
      | none => current
    | none => current

/-! ### The abstract repository and the builder state

The repository/transport client is an external collaborator of the
builder (`AsyncRepository`); the builder only calls `get_root_hash`,
`retrieve_catalog` (which may fail with a transport error),
`catalog.list_nested`, `catalog.db_size`, `get_object_size` (HEAD size
probe, `none` when unavailable) and the disk-cache presence test.  It is
embedded as finite maps.  Every network interaction is additionally
recorded in an event log so that "zero fetches / zero probes" claims are
directly observable. -/

/-- `CatalogReference`: one nested-catalog reference produced by listing
a catalog (`root_path`, `hash`, `size` where 0 means unknown). -/
structure CatalogRef where
  root_path : String
  hash : String
  size : Int

/-- A fetched catalog: its hash, its database size in bytes and the list
of nested references it yields. -/
structure Catalog where
  hash : String
  db_size : Int
  nested : List CatalogRef

/-- The abstract repository: root hash, hash→catalog map (`none` models
a transport failure for that hash), hash→compressed-size map for HEAD
probes, and the set of hashes present in the local disk cache. -/
structure Repository where
  root_hash : String
  catalogs : List (String × Catalog)
  obj_sizes : List (String × Int)
  cache : List String

/-- `repository.retrieve_catalog(hash)`; `none` is a transport error. -/
def Repository.retrieve (repo : Repository) (h : String) : Option Catalog :=
  dict_get repo.catalogs h

/-- `repository.get_object_size(hash, "C")`. -/
def Repository.object_size (repo : Repository) (h : String) : Option Int :=
  dict_get repo.obj_sizes h

/-- `_is_catalog_in_cache`. -/
def Repository.in_cache (repo : Repository) (h : String) : Bool :=
  repo.cache.any (fun x => x = h)

/-- One network interaction: a catalog fetch attempt or a HEAD size
probe, keyed by the object hash. -/
inductive Event where
  | fetch (h : String)
  | probe (h : String)

/-- The constructor arguments of `AsyncCatalogTreeBuilder.__init__` that
influence the crawl (the worker count and progress callback do not
affect the resulting tree or counters in the sequential embedding). -/
structure BuilderConfig where
  stop_threshold : Int
  max_depth : Option Nat
  max_catalogs : Option Nat
  ignore_paths : List String
  previous_tree : Option CatalogNode

/-- The statistics counters of `AsyncCatalogTreeBuilder`, plus the event
log of network interactions. -/
structure BuildStats where
  catalogs_downloaded : Nat
  total_bytes_downloaded : Int
  catalogs_found : Nat
  large_catalogs_found : Nat
  head_requests : Nat
  bytes_skipped : Int
  ignored_count : Nat
  cache_hits : Nat
  bytes_from_cache : Int
  tree_cache_reused : Nat
  events : List Event

/-- All counters zero, no events: the state right after `__init__`. -/
def init_stats : BuildStats :=
  ⟨0, 0, 0, 0, 0, 0, 0, 0, 0, 0, []⟩

/-- `_should_ignore`: the path equals a configured ignore path or lies
strictly below one. -/
def should_ignore (cfg : BuilderConfig) (path : String) : Bool :=
  cfg.ignore_paths.any (fun ip => path = ip || str_starts_with path (ip ++ "/"))

/-- `_get_catalog_size`: use the reference's size hint when positive,
otherwise issue a HEAD probe (counted in `head_requests` and logged) and
use its answer, or 0 when the probe is unavailable. -/
def get_catalog_size (repo : Repository) (catalog_hash : String) (ref_size : Int)
    (st : BuildStats) : Int × BuildStats :=
  if ref_size > 0 then (ref_size, st)
  else
    let st := { st with head_requests := st.head_requests + 1,
                        events := st.events ++ [Event.probe catalog_hash] }
    match repo.object_size catalog_hash with
    | some compressed_size => (compressed_size, st)
    | none => (0, st)

def CatalogNode.with_size : CatalogNode → Int → CatalogNode
  | .mk p h _ cc d cs il ir iv, sb => .mk p h sb cc d cs il ir iv

def CatalogNode.with_cost : CatalogNode → Int → CatalogNode
  | .mk p h sb _ d cs il ir iv, cc => .mk p h sb cc d cs il ir iv

def CatalogNode.with_large : CatalogNode → Bool → CatalogNode
  | .mk p h sb cc d cs _ ir iv, il => .mk p h sb cc d cs il ir iv

/-- The max-depth stop of `_process_single_ref`:
`max_depth is not None and depth > max_depth`. -/
def depth_exceeded (cfg : BuilderConfig) (d : Nat) : Bool :=
  match cfg.max_depth with
  | some md => decide (d > md)
  | none => false

/-- The download-budget stop of `_process_single_ref`:
`max_catalogs is not None and catalogs_downloaded >= max_catalogs`. -/
def budget_exhausted (cfg : BuilderConfig) (st : BuildStats) : Bool :=
  match cfg.max_catalogs with
  | some mc => decide (st.catalogs_downloaded ≥ mc)
  | none => false

/-- The descend test at the end of `_process_single_ref`:
`not child_node.is_large and (max_depth is None or child_node.depth < max_depth)`. -/
def may_descend (cfg : BuilderConfig) (child : CatalogNode) : Bool :=
  !child.is_large &&
    (match cfg.max_depth with
     | none => true
     | some md => decide (child.depth < md))

/-- The post-fetch size correction of `_process_single_ref` (source
lines 432-442), transcribed in source statement order: when the node's
size was still 0, assign `size_bytes = actual_size` first, then compute
`cumulative_cost - size_bytes + actual_size` (reading the already
updated `size_bytes`), then re-evaluate `is_large` against the actual
size and bump the large-catalog counter if it flipped. -/
def apply_size_correction (cfg : BuilderConfig) (child_node : CatalogNode)
    (child_catalog : Catalog) (st : BuildStats) : CatalogNode × BuildStats :=
  if child_node.size_bytes = 0 then
    let actual_size := child_catalog.db_size
    let c1 := child_node.with_size actual_size
    let c2 := c1.with_cost (c1.cumulative_cost - c1.size_bytes + actual_size)
    let c3 := c2.with_large (decide (actual_size > cfg.stop_threshold))
    let st2 :=
      if c3.is_large then
        { st with large_catalogs_found := st.large_catalogs_found + 1 }
      else st
    (c3, st2)
  else (child_node, st)

/-- The final decision of `_process_single_ref`: return the descent
unit when `may_descend` holds for the (corrected) child, and stop
otherwise. -/
def descend_or_stop (cfg : BuilderConfig) (segs : List String) (p3 child2 : CatalogNode)
    (nested : List CatalogRef) (st : BuildStats) :
    CatalogNode × Option (List String × CatalogNode × List CatalogRef) × BuildStats :=
  if may_descend cfg child2 then
    (p3, some (segs, child2, nested), st)
  else
    (p3, none, st)

/-- The download stage of `_process_single_ref`: check the local cache,
fetch the catalog (a transport failure is caught by the worker and the
already inserted node stays), update the download counters, apply the
size correction, and produce a descent unit exactly when `may_descend`
holds for the corrected node. -/
def process_ref_download (cfg : BuilderConfig) (repo : Repository) (ref : CatalogRef)
    (segs : List String) (p2 child_node : CatalogNode) (st : BuildStats) :
    CatalogNode × Option (List String × CatalogNode × List CatalogRef) × BuildStats :=
  let in_cache := repo.in_cache ref.hash
  match repo.retrieve ref.hash with
  | none =>
    (p2, none, { st with events := st.events ++ [Event.fetch ref.hash] })
  | some child_catalog =>
    let catalog_size := child_catalog.db_size
    let st := { st with
      catalogs_downloaded := st.catalogs_downloaded + 1,
      total_bytes_downloaded := st.total_bytes_downloaded + catalog_size,
      cache_hits := st.cache_hits + (if in_cache then 1 else 0),
      bytes_from_cache := st.bytes_from_cache + (if in_cache then catalog_size else 0),
      events := st.events ++ [Event.fetch ref.hash] }
    let cor := apply_size_correction cfg child_node child_catalog st
    descend_or_stop cfg segs (replace_last_at p2 segs cor.1) cor.1
      child_catalog.nested cor.2

/-- Steps 3-5 of the decision policy on the statistics side: count the
reference as found, resolve its size (possibly probing), and if the size
exceeds the stop threshold count the large catalog and its skipped
bytes.  Returns the resolved size with the updated stats. -/
def found_size_stats (cfg : BuilderConfig) (repo : Repository) (ref : CatalogRef)
    (st : BuildStats) : Int × BuildStats :=
  let st := { st with catalogs_found := st.catalogs_found + 1 }
  let sz := get_catalog_size repo ref.hash ref.size st
  let child_size := sz.1
  let st := sz.2
  let is_large := decide (child_size > cfg.stop_threshold)
  let st :=
    if is_large then
      { st with large_catalogs_found := st.large_catalogs_found + 1,
                bytes_skipped := st.bytes_skipped + child_size }
    else st
  (child_size, st)

/-- The non-graft tail of `_process_single_ref` (lines after the
previous-tree check): count the reference as found, resolve its size,
insert the node, apply the depth/budget/size stops, and hand over to the
download stage. -/
def process_ref_resolve (cfg : BuilderConfig) (repo : Repository)
    (parent_node : CatalogNode) (ref : CatalogRef) (st : BuildStats) :
    CatalogNode × Option (List String × CatalogNode × List CatalogRef) × BuildStats :=
  let fs := found_size_stats cfg repo ref st
  let child_size := fs.1
  let st := fs.2
  let is_large := decide (child_size > cfg.stop_threshold)
  let segs := get_path_segments parent_node.path ref.root_path
  let ins := insert_at_path parent_node parent_node.path ref.root_path ref.hash
    child_size is_large
  let p2 := ins.1
  let child_node := ins.2
  if depth_exceeded cfg child_node.depth then (p2, none, st)
  else if budget_exhausted cfg st then (p2, none, st)
  else if is_large then (p2, none, st)
  else process_ref_download cfg repo ref segs p2 child_node st

/-- `AsyncCatalogTreeBuilder._process_single_ref`: the per-reference
decision policy — ignore, graft from the previous tree, or resolve
(size, insert, stops, download, correction) via `process_ref_resolve`. -/
def process_single_ref (cfg : BuilderConfig) (repo : Repository)
    (lookup : List (String × CatalogNode)) (parent_node : CatalogNode)
    (ref : CatalogRef) (st : BuildStats) :
    CatalogNode × Option (List String × CatalogNode × List CatalogRef) × BuildStats :=
  if should_ignore cfg ref.root_path then
    (parent_node, none, { st with ignored_count := st.ignored_count + 1 })
  else
    match dict_get lookup ref.root_path with
    | some cached_node =>
      if cached_node.hash = ref.hash then
        let reused := count_nodes cached_node
        let st := { st with
          tree_cache_reused := st.tree_cache_reused + reused,
          catalogs_found := st.catalogs_found + reused }
        let grafted := graft_at_path parent_node parent_node.path cached_node
        (grafted.1, none, st)
      else process_ref_resolve cfg repo parent_node ref st
    | none => process_ref_resolve cfg repo parent_node ref st

/-- One work unit of the scheduler: process the listed references of one
parent node in order, recursing into each descent unit through the
`descend` continuation and substituting the explored child back into the
tree.  The asyncio worker pool of `_populate_children_async` drains the
queue concurrently; the embedding fixes the sequential depth-first
drain order (the claims below do not depend on drain order). -/
def process_unit
    (descend : CatalogNode → List CatalogRef → BuildStats → CatalogNode × BuildStats)
    (cfg : BuilderConfig) (repo : Repository) (lookup : List (String × CatalogNode)) :
    CatalogNode → List CatalogRef → BuildStats → CatalogNode × BuildStats
  | parent, [], st => (parent, st)
  | parent, r :: rs, st =>
    let step := process_single_ref cfg repo lookup parent r st
    match step.2.1 with
    | none => process_unit descend cfg repo lookup step.1 rs step.2.2
    | some (segs, child, childRefs) =>
      let explored := descend child childRefs step.2.2
      let p3 := replace_last_at step.1 segs explored.1
      process_unit descend cfg repo lookup p3 rs explored.2

/-- The recursive drain of the work queue, bounded by `fuel` levels of
nesting (the Python queue recursion is unbounded; every claim proved
below holds for every fuel value, and concrete runs use enough fuel to
exhaust the repository). -/
def process_refs (cfg : BuilderConfig) (repo : Repository)
    (lookup : List (String × CatalogNode)) :
    Nat → CatalogNode → List CatalogRef → BuildStats → CatalogNode × BuildStats
  | 0, parent, _, st => (parent, st)
  | fuel + 1, parent, refs, st =>
    process_unit (process_refs cfg repo lookup fuel) cfg repo lookup parent refs st

/-- The non-short-circuit path of `AsyncCatalogTreeBuilder.build`: fetch
the root catalog (failure is fatal: `none`), set up the root node and
the initial counters, descend unless the root is large or the depth
budget forbids it, and finish with the top-down recalculation pass. -/
def build_main (cfg : BuilderConfig) (repo : Repository) (fuel : Nat)
    (lookup : List (String × CatalogNode)) : Option (CatalogNode × BuildStats) :=
  let root_in_cache := repo.in_cache repo.root_hash
  match repo.retrieve repo.root_hash with
  | none => none
  | some root_catalog =>
    let root_size := root_catalog.db_size
    let st : BuildStats := { init_stats with
      catalogs_downloaded := 1,
      total_bytes_downloaded := root_size,
      catalogs_found := 1,
      cache_hits := if root_in_cache then 1 else 0,
      bytes_from_cache := if root_in_cache then root_size else 0,
      events := [Event.fetch repo.root_hash] }
    let is_large := decide (root_size > cfg.stop_threshold)
    let st := if is_large then { st with large_catalogs_found := 1 } else st
    let root_node : CatalogNode :=
      .mk "/" root_catalog.hash root_size root_size 0 [] is_large true false
    let descended :=
      if !is_large && (match cfg.max_depth with | none => true | some md => decide (md > 0)) then
        process_refs cfg repo lookup fuel root_node root_catalog.nested st
      else (root_node, st)
    some (recalculate_tree descended.1, descended.2)

/-- `AsyncCatalogTreeBuilder.build`: if a previous tree is supplied and
its root hash equals the freshly queried root hash, return it after a
single recalculation pass with the reused-node counter set; otherwise
run the crawl from the root catalog. -/
def build (cfg : BuilderConfig) (repo : Repository) (fuel : Nat) :
    Option (CatalogNode × BuildStats) :=
  match cfg.previous_tree with
  | some prev =>
    if prev.hash = repo.root_hash then
      some (recalculate_tree prev,
        { init_stats with tree_cache_reused := count_nodes prev })
    else build_main cfg repo fuel (build_lookup prev)
  | none => build_main cfg repo fuel []

/-! ### Serialization: `to_dict` / `from_dict` (tree_builder.py)

The JSON dictionary is embedded as a record of the three required keys
and the six optional keys that `from_dict` reads: a `none` field is an
absent key. -/

inductive NodeDict where
  | mk (path : String) (hash : String) (size : Int)
       (cumulative_cost : Option Int) (depth : Option Nat)
       (children : Option (List NodeDict)) (is_large : Option Bool)
       (is_root : Option Bool) (is_virtual : Option Bool)

/-! `CatalogNode.to_dict`: emit `path`, `hash`, `size` always; emit
`is_large` / `is_virtual` only when true; emit `children` only when
non-empty; never emit `depth`, `cumulative_cost` or `is_root`. -/
mutual
def to_dict : CatalogNode → NodeDict
  | .mk p h sb _ _ cs il _ iv =>
    .mk p h sb none none
      (match cs with
       | [] => none
       | _ :: _ => some (to_dict_list cs))
      (if il then some true else none) none (if iv then some true else none)
def to_dict_list : List CatalogNode → List NodeDict
  | [] => []
  | c :: cs => to_dict c :: to_dict_list cs
end

/-! `CatalogNode.from_dict`: read the required keys and default every
missing optional key (`cumulative_cost` 0, `depth` 0, `children` empty,
flags false). -/
mutual
def from_dict : NodeDict → CatalogNode
  | .mk p h s cc d cs il ir iv =>
    .mk p h s (cc.getD 0) (d.getD 0)
      (match cs with
       | some l => from_dict_list l
       | none => [])
      (il.getD false) (ir.getD false) (iv.getD false)
def from_dict_list : List NodeDict → List CatalogNode
  | [] => []
  | c :: cs => from_dict c :: from_dict_list cs
end

/-! ### Derived-field erasers and structural projections -/

/-! Zero out the never-persisted fields (`depth`, `cumulative_cost`,
`is_root`) everywhere in a tree: the image of a round trip through
`to_dict`/`from_dict`. -/
mutual
def erase_derived : CatalogNode → CatalogNode
  | .mk p h sb _ _ cs il _ iv => .mk p h sb 0 0 (erase_derived_list cs) il false iv
def erase_derived_list : List CatalogNode → List CatalogNode
  | [] => []
  | c :: cs => erase_derived c :: erase_derived_list cs
end

/-! Clear `is_root` everywhere, leaving every other field intact. -/
mutual
def erase_root : CatalogNode → CatalogNode
  | .mk p h sb cc d cs il _ iv => .mk p h sb cc d (erase_root_list cs) il false iv
def erase_root_list : List CatalogNode → List CatalogNode
  | [] => []
  | c :: cs => erase_root c :: erase_root_list cs
end

/-- The persisted shape of a node: everything except the derived fields
`depth`, `cumulative_cost` and the non-persisted flag `is_root`. -/
inductive Shape where
  | mk (path : String) (hash : String) (size : Int)
       (is_large : Bool) (is_virtual : Bool) (children : List Shape)

mutual
def strip : CatalogNode → Shape
  | .mk p h sb _ _ cs il _ iv => .mk p h sb il iv (strip_list cs)
def strip_list : List CatalogNode → List Shape
  | [] => []
  | c :: cs => strip c :: strip_list cs
end

/-- The non-derived content of a node: everything except `depth` and
`cumulative_cost` (all three flags included). -/
inductive FullShape where
  | mk (path : String) (hash : String) (size : Int)
       (is_large : Bool) (is_root : Bool) (is_virtual : Bool)
       (children : List FullShape)

mutual
def strip_full : CatalogNode → FullShape
  | .mk p h sb _ _ cs il ir iv => .mk p h sb il ir iv (strip_full_list cs)
def strip_full_list : List CatalogNode → List FullShape
  | [] => []
  | c :: cs => strip_full c :: strip_full_list cs
end

/-! ### Observers used by the claims -/

/-! The cost/depth invariant of the spec, as an executable check:
`inv_children pd pcost cs` demands that every node `c` of the forest
`cs` satisfy `depth(c) = pd + 1` and
`cumulative_cost(c) = pcost + size_bytes(c)` and that the same hold
recursively between `c` and its own children. -/
mutual
def inv_node : CatalogNode → Bool
  | .mk _ _ _ cc d cs _ _ _ => inv_children d cc cs
def inv_children (pd : Nat) (pcost : Int) : List CatalogNode → Bool
  | [] => true
  | c :: cs =>
    decide (c.depth = pd + 1) && decide (c.cumulative_cost = pcost + c.size_bytes) &&
      inv_node c && inv_children pd pcost cs
end

/-- The whole-tree cost/depth invariant: the root has depth 0 and
cumulative cost equal to its own size, and every other node extends its
parent by one depth level and its own size in cost. -/
def cost_depth_ok (t : CatalogNode) : Bool :=
  decide (t.depth = 0) && decide (t.cumulative_cost = t.size_bytes) && inv_node t

/-! `subtree_mem sub t`: `sub` occurs (as a whole, unmodified subtree)
somewhere in `t`. -/
mutual
def subtree_mem (sub : CatalogNode) : CatalogNode → Prop
  | .mk p h sb cc d cs il ir iv =>
    CatalogNode.mk p h sb cc d cs il ir iv = sub ∨ subtree_mem_list sub cs
def subtree_mem_list (sub : CatalogNode) : List CatalogNode → Prop
  | [] => False
  | c :: cs => subtree_mem sub c ∨ subtree_mem_list sub cs
end

/-! `has_deeper md t`: some node of `t` has depth strictly greater than
`md`. -/
mutual
def has_deeper (md : Nat) : CatalogNode → Bool
  | .mk _ _ _ _ d cs _ _ _ => decide (d > md) || has_deeper_list md cs
def has_deeper_list (md : Nat) : List CatalogNode → Bool
  | [] => false
  | c :: cs => has_deeper md c || has_deeper_list md cs
end

/-! `has_large_with_child t`: some node of `t` is flagged `is_large` yet
has a non-empty children list. -/
mutual
def has_large_with_child : CatalogNode → Bool
  | .mk _ _ _ _ _ cs il _ _ =>
    (il && !cs.isEmpty) || has_large_with_child_list cs
def has_large_with_child_list : List CatalogNode → Bool
  | [] => false
  | c :: cs => has_large_with_child c || has_large_with_child_list cs
end

/-! `count_path p t`: how many nodes of `t` sit at path `p`;
`count_virtual_path p t`: how many of those are virtual. -/
mutual
def count_path (p : String) : CatalogNode → Nat
  | .mk q _ _ _ _ cs _ _ _ => (if q = p then 1 else 0) + count_path_list p cs
def count_path_list (p : String) : List CatalogNode → Nat
  | [] => 0
  | c :: cs => count_path p c + count_path_list p cs
end

mutual
def count_virtual_path (p : String) : CatalogNode → Nat
  | .mk q _ _ _ _ cs _ _ iv =>
    (if q = p && iv then 1 else 0) + count_virtual_path_list p cs
def count_virtual_path_list (p : String) : List CatalogNode → Nat
  | [] => 0
  | c :: cs => count_virtual_path p c + count_virtual_path_list p cs
end

/-! ### Lemmas: the recalculation pass establishes the cost invariant -/

theorem recalc_node_child_fields (pd : Nat) (pcost : Int) (t : CatalogNode) :
    (recalc_node (some (pd, pcost)) t).depth = pd + 1 ∧
    (recalc_node (some (pd, pcost)) t).cumulative_cost = pcost + t.size_bytes ∧
    (recalc_node (some (pd, pcost)) t).size_bytes = t.size_bytes := by
  cases t
  simp [recalc_node, CatalogNode.depth, CatalogNode.cumulative_cost, CatalogNode.size_bytes]

theorem inv_recalc_node : ∀ t : CatalogNode, ∀ pc, inv_node (recalc_node pc t) = true := by
  intro t
  induction t using catalogNode_ind with
  | step p h sb cc d cs il ir iv ih =>
    have hlist : ∀ l, (∀ c ∈ l, ∀ pc, inv_node (recalc_node pc c) = true) →
        ∀ pd pcost, inv_children pd pcost (recalc_children pd pcost l) = true := by
      intro l
      induction l with
      | nil => intro _ pd pcost; simp [recalc_children, inv_children]
      | cons c cs ihl =>
        intro hm pd pcost
        have h1 := recalc_node_child_fields pd pcost c
        simp only [recalc_children, inv_children, h1.1, h1.2.1, h1.2.2,
          Bool.and_eq_true, decide_eq_true_eq]
        exact ⟨⟨⟨trivial, trivial⟩, hm c (List.mem_cons_self c cs) (some (pd, pcost))⟩,
          ihl (fun x hx => hm x (List.mem_cons_of_mem c hx)) pd pcost⟩
    intro pc
    match pc with
    | none =>
      simp only [recalc_node, inv_node]
      exact hlist cs ih 0 sb
    | some (pd, pcost) =>
      simp only [recalc_node, inv_node]
      exact hlist cs ih (pd + 1) (pcost + sb)

theorem cost_depth_ok_recalc (t : CatalogNode) :
    cost_depth_ok (recalculate_tree t) = true := by
  cases t with
  | mk p h sb cc d cs il ir iv =>
    have hinv := inv_recalc_node (CatalogNode.mk p h sb cc d cs il ir iv) none
    simp only [recalculate_tree, recalc_node] at hinv ⊢
    simp [cost_depth_ok, CatalogNode.depth, CatalogNode.cumulative_cost,
      CatalogNode.size_bytes, hinv]

theorem build_main_is_recalc (cfg : BuilderConfig) (repo : Repository) (fuel : Nat)
    (lookup : List (String × CatalogNode)) (t : CatalogNode) (st : BuildStats)
    (h : build_main cfg repo fuel lookup = some (t, st)) :
    ∃ u, t = recalculate_tree u := by
  unfold build_main at h
  split at h
  · exact absurd h (by simp)
  · simp only [Option.some.injEq, Prod.mk.injEq] at h
    exact ⟨_, h.1.symm⟩

theorem build_is_recalc (cfg : BuilderConfig) (repo : Repository) (fuel : Nat)
    (t : CatalogNode) (st : BuildStats)
    (h : build cfg repo fuel = some (t, st)) :
    ∃ u, t = recalculate_tree u := by
  unfold build at h
  split at h
  · rename_i prev _
    split at h
    · simp only [Option.some.injEq, Prod.mk.injEq] at h
      exact ⟨prev, h.1.symm⟩
    · exact build_main_is_recalc _ _ _ _ _ _ h
  · exact build_main_is_recalc _ _ _ _ _ _ h

/-! ### Demo inputs used by the witnesses -/

/-- A one-catalog repository: root hash `R`, root catalog of size 10
with no nested references. -/
def demo_repo : Repository := ⟨"R", [("R", ⟨"R", 10, []⟩)], [], []⟩

/-- Default configuration: 50-byte stop threshold, no depth/budget
limits, no ignores, no previous tree. -/
def demo_cfg : BuilderConfig := ⟨50, none, none, [], none⟩

/-- A previous tree whose root hash matches `demo_repo`: root plus one
real child (2 non-virtual nodes). -/
def demo_prev : CatalogNode :=
  .mk "/" "R" 10 10 0 [.mk "/x" "X" 5 15 1 [] false false false] false true false

/-- `demo_cfg` with `demo_prev` supplied as the previous tree. -/
def demo_cfg_prev : BuilderConfig := ⟨50, none, none, [], some demo_prev⟩

/-- C1: after `build()` returns its tree (in every run that does not
fail at the root), every node `n` of the returned tree satisfies the
cost invariant: the root has `depth 0` and
`cumulative_cost = size_bytes`, and every other node has
`depth = depth(parent) + 1` and
`cumulative_cost = cumulative_cost(parent) + size_bytes`. -/
theorem C1_build_cost_depth_invariant (cfg : BuilderConfig) (repo : Repository)
    (fuel : Nat) (t : CatalogNode) (st : BuildStats)
    (h : build cfg repo fuel = some (t, st)) : cost_depth_ok t = true := by
  obtain ⟨u, hu⟩ := build_is_recalc cfg repo fuel t st h
  rw [hu]
  exact cost_depth_ok_recalc u

theorem C1_witness :
    cost_depth_ok (CatalogNode.mk "/" "R" 10 10 0 [] false true false) = true :=
  C1_build_cost_depth_invariant demo_cfg demo_repo 1 _
    ⟨1, 10, 1, 0, 0, 0, 0, 0, 0, 0, [Event.fetch "R"]⟩ rfl

/-- C2: if a previous tree is supplied and its root hash equals the
freshly queried root hash, `build()` returns the previous tree itself
after a single recalculate pass, with zero catalog fetches, zero size
probes (empty event log, zero download and HEAD counters) and the
reused-nodes counter set to `count_nodes(previous_tree)`. -/
theorem C2_root_short_circuit (cfg : BuilderConfig) (repo : Repository)
    (fuel : Nat) (prev : CatalogNode)
    (hprev : cfg.previous_tree = some prev)
    (hhash : prev.hash = repo.root_hash) :
    build cfg repo fuel =
      some (recalculate_tree prev,
        { catalogs_downloaded := 0, total_bytes_downloaded := 0,
          catalogs_found := 0, large_catalogs_found := 0, head_requests := 0,
          bytes_skipped := 0, ignored_count := 0, cache_hits := 0,
          bytes_from_cache := 0, tree_cache_reused := count_nodes prev,
          events := [] }) := by
  unfold build
  rw [hprev]
  simp [hhash, init_stats]

theorem C2_witness :
    build demo_cfg_prev demo_repo 3 =
      some (recalculate_tree demo_prev, ⟨0, 0, 0, 0, 0, 0, 0, 0, 0, 2, []⟩) :=
  C2_root_short_circuit demo_cfg_prev demo_repo 3 demo_prev rfl rfl

/-! ### Lemmas: recalculation touches only derived fields -/

theorem strip_recalc : ∀ t : CatalogNode, ∀ pc, strip (recalc_node pc t) = strip t := by
  intro t
  induction t using catalogNode_ind with
  | step p h sb cc d cs il ir iv ih =>
    have hlist : ∀ l, (∀ c ∈ l, ∀ pc, strip (recalc_node pc c) = strip c) →
        ∀ pd pcost, strip_list (recalc_children pd pcost l) = strip_list l := by
      intro l
      induction l with
      | nil => intro _ _ _; simp [recalc_children, strip_list]
      | cons c cs ihl =>
        intro hm pd pcost
        simp [recalc_children, strip_list,
          hm c (List.mem_cons_self c cs) (some (pd, pcost)),
          ihl (fun x hx => hm x (List.mem_cons_of_mem c hx)) pd pcost]
    intro pc
    match pc with
    | none => simp [recalc_node, strip, hlist cs ih 0 sb]
    | some (pd, pcost) => simp [recalc_node, strip, hlist cs ih (pd + 1) (pcost + sb)]

theorem strip_full_recalc : ∀ t : CatalogNode, ∀ pc,
    strip_full (recalc_node pc t) = strip_full t := by
  intro t
  induction t using catalogNode_ind with
  | step p h sb cc d cs il ir iv ih =>
    have hlist : ∀ l, (∀ c ∈ l, ∀ pc, strip_full (recalc_node pc c) = strip_full c) →
        ∀ pd pcost, strip_full_list (recalc_children pd pcost l) = strip_full_list l := by
      intro l
      induction l with
      | nil => intro _ _ _; simp [recalc_children, strip_full_list]
      | cons c cs ihl =>
        intro hm pd pcost
        simp [recalc_children, strip_full_list,
          hm c (List.mem_cons_self c cs) (some (pd, pcost)),
          ihl (fun x hx => hm x (List.mem_cons_of_mem c hx)) pd pcost]
    intro pc
    match pc with
    | none => simp [recalc_node, strip_full, hlist cs ih 0 sb]
    | some (pd, pcost) => simp [recalc_node, strip_full, hlist cs ih (pd + 1) (pcost + sb)]

theorem recalc_node_idem : ∀ t : CatalogNode, ∀ pc,
    recalc_node pc (recalc_node pc t) = recalc_node pc t := by
  intro t
  induction t using catalogNode_ind with
  | step p h sb cc d cs il ir iv ih =>
    have hlist : ∀ l, (∀ c ∈ l, ∀ pc, recalc_node pc (recalc_node pc c) = recalc_node pc c) →
        ∀ pd pcost, recalc_children pd pcost (recalc_children pd pcost l) =
          recalc_children pd pcost l := by
      intro l
      induction l with
      | nil => intro _ _ _; simp [recalc_children]
      | cons c cs ihl =>
        intro hm pd pcost
        simp [recalc_children,
          hm c (List.mem_cons_self c cs) (some (pd, pcost)),
          ihl (fun x hx => hm x (List.mem_cons_of_mem c hx)) pd pcost]
    intro pc
    match pc with
    | none => simp [recalc_node, hlist cs ih 0 sb]
    | some (pd, pcost) => simp [recalc_node, hlist cs ih (pd + 1) (pcost + sb)]

/-! ### Lemmas: the round trip through `to_dict` / `from_dict` -/

theorem from_to_dict : ∀ t : CatalogNode, from_dict (to_dict t) = erase_derived t := by
  intro t
  induction t using catalogNode_ind with
  | step p h sb cc d cs il ir iv ih =>
    have hlist : ∀ l, (∀ c ∈ l, from_dict (to_dict c) = erase_derived c) →
        from_dict_list (to_dict_list l) = erase_derived_list l := by
      intro l
      induction l with
      | nil => intro _; simp [to_dict_list, from_dict_list, erase_derived_list]
      | cons c cs ihl =>
        intro hm
        simp [to_dict_list, from_dict_list, erase_derived_list,
          hm c (List.mem_cons_self c cs),
          ihl (fun x hx => hm x (List.mem_cons_of_mem c hx))]
    cases cs with
    | nil =>
      cases il <;> cases iv <;>
        simp [to_dict, from_dict, erase_derived, erase_derived_list, Option.getD]
    | cons c₀ cs₀ =>
      have hl := hlist (c₀ :: cs₀) ih
      cases il <;> cases iv <;>
        simp [to_dict, from_dict, erase_derived, Option.getD, hl]

theorem recalc_erase_derived : ∀ t : CatalogNode, ∀ pc,
    recalc_node pc (erase_derived t) = erase_root (recalc_node pc t) := by
  intro t
  induction t using catalogNode_ind with
  | step p h sb cc d cs il ir iv ih =>
    have hlist : ∀ l,
        (∀ c ∈ l, ∀ pc, recalc_node pc (erase_derived c) = erase_root (recalc_node pc c)) →
        ∀ pd pcost, recalc_children pd pcost (erase_derived_list l) =
          erase_root_list (recalc_children pd pcost l) := by
      intro l
      induction l with
      | nil => intro _ _ _; simp [recalc_children, erase_derived_list, erase_root_list]
      | cons c cs ihl =>
        intro hm pd pcost
        simp [recalc_children, erase_derived_list, erase_root_list,
          hm c (List.mem_cons_self c cs) (some (pd, pcost)),
          ihl (fun x hx => hm x (List.mem_cons_of_mem c hx)) pd pcost]
    intro pc
    match pc with
    | none => simp [recalc_node, erase_derived, erase_root, hlist cs ih 0 sb]
    | some (pd, pcost) =>
      simp [recalc_node, erase_derived, erase_root, hlist cs ih (pd + 1) (pcost + sb)]

theorem strip_erase_derived : ∀ t : CatalogNode, strip (erase_derived t) = strip t := by
  intro t
  induction t using catalogNode_ind with
  | step p h sb cc d cs il ir iv ih =>
    have hlist : ∀ l, (∀ c ∈ l, strip (erase_derived c) = strip c) →
        strip_list (erase_derived_list l) = strip_list l := by
      intro l
      induction l with
      | nil => intro _; simp [erase_derived_list, strip_list]
      | cons c cs ihl =>
        intro hm
        simp [erase_derived_list, strip_list,
          hm c (List.mem_cons_self c cs),
          ihl (fun x hx => hm x (List.mem_cons_of_mem c hx))]
    simp [erase_derived, strip, hlist cs ih]

/-- C6: encoding a tree with `to_dict` and decoding with `from_dict`
followed by the recalculation pass reproduces the tree's path, hash,
size, `is_large`/`is_virtual` flags and children structure exactly at
every position, while `depth` and `cumulative_cost` are recomputed by
the top-down pass (and `is_root`, which is never persisted, comes back
false everywhere): the round trip equals `erase_root` of the
recalculated original. -/
theorem C6_roundtrip (t : CatalogNode) :
    strip (recalculate_tree (from_dict (to_dict t))) = strip t ∧
    recalculate_tree (from_dict (to_dict t)) = erase_root (recalculate_tree t) := by
  constructor
  · rw [recalculate_tree, strip_recalc, from_to_dict, strip_erase_derived]
  · rw [recalculate_tree, recalculate_tree, from_to_dict, recalc_erase_derived]

/-- C10: `recalculate_tree` is idempotent and only touches the derived
fields: a second application reproduces the first application exactly,
and no application ever changes a node's path, hash, size, children
structure or flags (`strip_full` keeps everything except `depth` and
`cumulative_cost`). -/
theorem C10_recalculate_idempotent (t : CatalogNode) :
    recalculate_tree (recalculate_tree t) = recalculate_tree t ∧
    strip_full (recalculate_tree t) = strip_full t := by
  constructor
  · exact recalc_node_idem t none
  · exact strip_full_recalc t none

/-- The root node of a freshly fetched 10-byte root catalog. -/
def demo_root : CatalogNode := .mk "/" "R" 10 10 0 [] false true false

set_option maxHeartbeats 2000000 in
/-- C9: inserting two references that share uncatalogued intermediate
directories — `/a/b/c1` and then `/a/b/c2` under a root with no node at
`/a` or `/a/b` — creates exactly one virtual node at each shared
intermediate path (`/a` and `/a/b`), not two: the second insertion finds
and descends through the virtual nodes created by the first, and both
real nodes end up under the same `/a/b` virtual node. -/
theorem C9_idempotent_virtual_insertion :
    count_path "/a" (insert_at_path (insert_at_path demo_root "/" "/a/b/c1" "H1" 3 false).1
      "/" "/a/b/c2" "H2" 4 false).1 = 1 ∧
    count_virtual_path "/a" (insert_at_path (insert_at_path demo_root "/" "/a/b/c1" "H1" 3 false).1
      "/" "/a/b/c2" "H2" 4 false).1 = 1 ∧
    count_path "/a/b" (insert_at_path (insert_at_path demo_root "/" "/a/b/c1" "H1" 3 false).1
      "/" "/a/b/c2" "H2" 4 false).1 = 1 ∧
    count_virtual_path "/a/b" (insert_at_path (insert_at_path demo_root "/" "/a/b/c1" "H1" 3 false).1
      "/" "/a/b/c2" "H2" 4 false).1 = 1 ∧
    (insert_at_path (insert_at_path demo_root "/" "/a/b/c1" "H1" 3 false).1
      "/" "/a/b/c2" "H2" 4 false).1 =
      .mk "/" "R" 10 10 0
        [.mk "/a" "" 0 10 1
          [.mk "/a/b" "" 0 10 2
            [.mk "/a/b/c1" "H1" 3 13 3 [] false false false,
             .mk "/a/b/c2" "H2" 4 14 3 [] false false false] false false true]
          false false true]
        false true false :=
  ⟨rfl, rfl, rfl, rfl, rfl⟩

/-- A repository where the catalog at hash `X` has actual database size
7 but no HEAD size information is available (the probe fails). -/
def cex_size_repo : Repository := ⟨"R", [("X", ⟨"X", 7, []⟩)], [], []⟩

set_option maxHeartbeats 2000000 in
/-- C4 (evaluating the code at the failing input): a reference with size
hint 0 whose probe fails and whose catalog is then fetched with actual
database size 7, under a parent with cumulative cost 10.  The code does
correct `size_bytes` to 7 and re-evaluates `is_large`, but the node's
`cumulative_cost` stays 10 instead of the claimed
`old cost − old size + actual = 10 − 0 + 7 = 17`: the assignment
`size_bytes = actual_size` happens before the expression
`cumulative_cost − size_bytes + actual_size` is computed, which makes
the delta propagation a no-op. -/
theorem C4_size_correction_no_cost_propagation :
    process_single_ref demo_cfg cex_size_repo [] demo_root ⟨"/x", "X", 0⟩ init_stats =
      (.mk "/" "R" 10 10 0 [.mk "/x" "X" 7 10 1 [] false false false] false true false,
       some (["/x"], .mk "/x" "X" 7 10 1 [] false false false, []),
       ⟨1, 7, 1, 0, 1, 0, 0, 0, 0, 0, [Event.probe "X", Event.fetch "X"]⟩) ∧
    ¬ ((10 : Int) = 10 - 0 + 7) :=
  ⟨rfl, by decide⟩

/-- `max_depth = 1` with a reference two path segments below the root. -/
def cex_depth_cfg : BuilderConfig := ⟨50, some 1, none, [], none⟩

def cex_depth_repo : Repository :=
  ⟨"R", [("R", ⟨"R", 10, [⟨"/a/b", "B", 1⟩]⟩), ("B", ⟨"B", 1, []⟩)], [], []⟩

set_option maxHeartbeats 2000000 in
/-- C5 counterexample: with `max_depth = 1`, building over a root whose
catalog references `/a/b` produces a tree containing a node of depth 2
(the real node `/a/b`, reached through the virtual node `/a`), so a node
with `depth > max_depth` exists in the tree returned by `build()`. -/
theorem C5_counterexample :
    cex_depth_cfg.max_depth = some 1 ∧
    Option.map (fun p => has_deeper 1 p.1) (build cex_depth_cfg cex_depth_repo 4) =
      some true :=
  ⟨rfl, rfl⟩

/-- A repository whose root catalog lists both a large catalog `/a`
(size 100 > threshold 50) and a small catalog `/a/b` beneath it. -/
def cex_large_repo : Repository :=
  ⟨"R", [("R", ⟨"R", 10, [⟨"/a", "A", 100⟩, ⟨"/a/b", "B", 5⟩]⟩), ("B", ⟨"B", 5, []⟩)], [], []⟩

set_option maxHeartbeats 2000000 in
/-- C7 counterexample: building over `cex_large_repo` yields a tree in
which the node `/a` has `is_large = true` and a non-empty children list:
the separately referenced `/a/b` is attached beneath the large node by
the path resolver, which descends through any existing child whose path
is a prefix of the inserted path. -/
theorem C7_counterexample :
    Option.map (fun p => has_large_with_child p.1) (build demo_cfg cex_large_repo 4) =
      some true :=
  rfl

/-- `max_catalogs = 0`. -/
def cex_budget_cfg : BuilderConfig := ⟨50, none, some 0, [], none⟩

set_option maxHeartbeats 2000000 in
/-- C8 counterexample: with `max_catalogs = 0` the root catalog is still
downloaded unconditionally, so `catalogs_downloaded` ends at 1 > 0: the
bound does not hold for `max_catalogs = 0`. -/
theorem C8_counterexample :
    cex_budget_cfg.max_catalogs = some 0 ∧
    Option.map (fun p => p.2.catalogs_downloaded) (build cex_budget_cfg demo_repo 2) =
      some 1 :=
  ⟨rfl, rfl⟩

/-! ### Lemmas: a grafted subtree occurs unmodified in the result -/

theorem split_on_slash_chars_ne_nil (l : List Char) : split_on_slash_chars l ≠ [] := by
  induction l with
  | nil => simp [split_on_slash_chars]
  | cons c cs ih =>
    simp only [split_on_slash_chars]
    split
    · simp
    · split
      · simp
      · simp

theorem split_on_slash_ne_nil (s : String) : split_on_slash s ≠ [] := by
  simp only [split_on_slash, ne_eq, List.map_eq_nil]
  exact split_on_slash_chars_ne_nil s.data

theorem path_segments_go_ne_nil (cur : String) (l : List String) (h : l ≠ []) :
    path_segments_go cur l ≠ [] := by
  cases l with
  | nil => exact absurd rfl h
  | cons x xs => simp [path_segments_go]

theorem get_path_segments_ne_nil (parent_path child_path : String) :
    get_path_segments parent_path child_path ≠ [] := by
  intro heq
  simp only [get_path_segments] at heq
  split at heq <;> split at heq
  all_goals
    first
      | simp at heq
      | exact path_segments_go_ne_nil _ _ (split_on_slash_ne_nil _) heq

theorem withChildren_children (t : CatalogNode) (cs : List CatalogNode) :
    (t.withChildren cs).children = cs := by
  cases t
  rfl

theorem subtree_mem_self (t : CatalogNode) : subtree_mem t t := by
  cases t
  simp [subtree_mem]

theorem subtree_mem_list_of_mem (s c : CatalogNode) (cs : List CatalogNode)
    (hc : c ∈ cs) (h : subtree_mem s c) : subtree_mem_list s cs := by
  induction cs with
  | nil => cases hc
  | cons x xs ih =>
    cases hc with
    | head => exact Or.inl h
    | tail _ hx => exact Or.inr (ih hx)

theorem subtree_mem_of_child (s t c : CatalogNode)
    (hc : c ∈ t.children) (h : subtree_mem s c) : subtree_mem s t := by
  cases t with
  | mk p hh sb cc d cs il ir iv =>
    simp only [subtree_mem]
    exact Or.inr (subtree_mem_list_of_mem s c cs hc h)

theorem find_matching_idx_lt (fp : String) (l : List CatalogNode) (i : Nat)
    (h : find_matching_idx fp l = some i) : i < l.length := by
  induction l generalizing i with
  | nil => simp [find_matching_idx] at h
  | cons c cs ih =>
    simp only [find_matching_idx] at h
    split at h
    · cases h
      simp
    · cases hr : find_matching_idx fp cs with
      | none => rw [hr] at h; cases h
      | some j =>
        rw [hr] at h
        simp only [Option.map_some'] at h
        cases h
        have := ih j hr
        simp
        omega

theorem get?_some_of_lt {α : Type} (l : List α) (i : Nat) (h : i < l.length) :
    ∃ a, l.get? i = some a := by
  induction l generalizing i with
  | nil => simp at h
  | cons x xs ih =>
    cases i with
    | zero => exact ⟨x, rfl⟩
    | succ n => exact ih n (by simpa using h)

theorem lt_of_get?_some {α : Type} (l : List α) (i : Nat) (a : α)
    (h : l.get? i = some a) : i < l.length := by
  induction l generalizing i with
  | nil => cases h
  | cons x xs ih =>
    cases i with
    | zero => simp
    | succ n =>
      have := ih n h
      simp
      omega

theorem mem_set_self {α : Type} (l : List α) (i : Nat) (a : α) (h : i < l.length) :
    a ∈ l.set i a := by
  induction l generalizing i with
  | nil => simp at h
  | cons x xs ih =>
    cases i with
    | zero => simp
    | succ n =>
      simp only [List.set_cons_succ, List.mem_cons]
      exact Or.inr (ih n (by simpa using h))

theorem find_or_create_get_some (self : CatalogNode) (ps fp : String) (d : Nat) :
    ∃ c, (find_or_create_child self ps fp d).1.children.get?
      (find_or_create_child self ps fp d).2 = some c := by
  unfold find_or_create_child
  cases hf : find_matching_idx fp self.children with
  | some i =>
    exact get?_some_of_lt _ _ (find_matching_idx_lt fp self.children i hf)
  | none =>
    simp only [withChildren_children]
    exact ⟨_, List.get?_concat_length _ _⟩

theorem attach_walk_mem : ∀ (segs : List String) (cur : CatalogNode)
    (f : CatalogNode → CatalogNode), segs ≠ [] →
    subtree_mem (attach_walk cur segs f).2 (attach_walk cur segs f).1
  | [], _, _, h => absurd rfl h
  | [l], cur, f, _ => by
    simp only [attach_walk]
    exact subtree_mem_of_child _ _ _
      (by simp [withChildren_children]) (subtree_mem_self _)
  | s :: r₁ :: r₂, cur, f, _ => by
    simp only [attach_walk]
    split
    · rename_i c hc
      have ih := attach_walk_mem (r₁ :: r₂) c f (by simp)
      refine subtree_mem_of_child _ _ _ ?_ ih
      rw [withChildren_children]
      exact mem_set_self _ _ _ (lt_of_get?_some _ _ _ hc)
    · exact subtree_mem_self _

theorem attach_walk_const_snd : ∀ (segs : List String) (cur cached : CatalogNode),
    segs ≠ [] → (attach_walk cur segs (fun _ => cached)).2 = cached
  | [], _, _, h => absurd rfl h
  | [l], cur, cached, _ => by simp [attach_walk]
  | s :: r₁ :: r₂, cur, cached, _ => by
    simp only [attach_walk]
    split
    · rename_i c hc
      exact attach_walk_const_snd (r₁ :: r₂) c cached (by simp)
    · rename_i hc
      obtain ⟨c, hcs⟩ := find_or_create_get_some cur (dropTrailing s) s (cur.depth + 1)
      rw [hc] at hcs
      cases hcs

/-- C3: for a discovered reference whose path is found in the previous
tree's lookup map with a stored hash exactly equal to the reference's
hash (and which is not ignored), the scheduler performs no fetch and no
size probe (the event log, download counter and HEAD counter are
untouched), produces no descent unit, attaches the entire cached subtree
unmodified at the location resolved by the path resolver (`graft_at_path`
from the parent), and increments both the found counter and the reused
counter by the subtree's non-virtual node count `count_nodes cached`,
not by 1. -/
theorem C3_graft_reuse (cfg : BuilderConfig) (repo : Repository)
    (lookup : List (String × CatalogNode)) (parent : CatalogNode)
    (ref : CatalogRef) (st : BuildStats) (cached : CatalogNode)
    (hig : should_ignore cfg ref.root_path = false)
    (hl : dict_get lookup ref.root_path = some cached)
    (hh : cached.hash = ref.hash) :
    process_single_ref cfg repo lookup parent ref st =
      ((graft_at_path parent parent.path cached).1, none,
        { st with tree_cache_reused := st.tree_cache_reused + count_nodes cached,
                  catalogs_found := st.catalogs_found + count_nodes cached }) ∧
    subtree_mem cached (graft_at_path parent parent.path cached).1 := by
  constructor
  · unfold process_single_ref
    rw [hig, hl]
    simp [hh]
  · have hne := get_path_segments_ne_nil parent.path cached.path
    have h1 := attach_walk_mem (get_path_segments parent.path cached.path) parent
      (fun _ => cached) hne
    have h2 := attach_walk_const_snd (get_path_segments parent.path cached.path) parent
      cached hne
    unfold graft_at_path
    rw [h2] at h1
    exact h1

/-- A cached subtree from a previous run: `/x` with one child `/x/y`
(2 non-virtual nodes). -/
def demo_cached : CatalogNode :=
  .mk "/x" "X" 5 15 1 [.mk "/x/y" "Y" 2 17 2 [] false false false] false false false

theorem C3_witness :
    process_single_ref demo_cfg demo_repo [("/x", demo_cached)] demo_root
        ⟨"/x", "X", 5⟩ init_stats =
      ((graft_at_path demo_root demo_root.path demo_cached).1, none,
        { init_stats with
            tree_cache_reused := init_stats.tree_cache_reused + count_nodes demo_cached,
            catalogs_found := init_stats.catalogs_found + count_nodes demo_cached }) ∧
    subtree_mem demo_cached (graft_at_path demo_root demo_root.path demo_cached).1 :=
  C3_graft_reuse demo_cfg demo_repo [("/x", demo_cached)] demo_root
    ⟨"/x", "X", 5⟩ init_stats demo_cached rfl rfl rfl

/-! ### Lemmas: a descent unit is only produced under `may_descend` -/

theorem descend_or_stop_may (cfg : BuilderConfig) (segs : List String)
    (p3 child2 : CatalogNode) (nested : List CatalogRef) (st : BuildStats)
    (p' : CatalogNode) (segs' : List String) (child : CatalogNode)
    (refs : List CatalogRef) (st' : BuildStats)
    (h : descend_or_stop cfg segs p3 child2 nested st = (p', some (segs', child, refs), st')) :
    may_descend cfg child = true := by
  unfold descend_or_stop at h
  split at h
  · simp only [Prod.mk.injEq, Option.some.injEq] at h
    obtain ⟨-, ⟨-, hchild, -⟩, -⟩ := h
    rename_i hmay
    rw [← hchild]
    exact hmay
  · simp at h

theorem download_descend_may (cfg : BuilderConfig) (repo : Repository)
    (ref : CatalogRef) (segs : List String) (p2 child_node : CatalogNode)
    (st : BuildStats) (p' : CatalogNode) (segs' : List String) (child : CatalogNode)
    (refs : List CatalogRef) (st' : BuildStats)
    (h : process_ref_download cfg repo ref segs p2 child_node st =
      (p', some (segs', child, refs), st')) :
    may_descend cfg child = true := by
  unfold process_ref_download at h
  dsimp only at h
  cases hr : repo.retrieve ref.hash with
  | none => rw [hr] at h; simp at h
  | some cat =>
    rw [hr] at h
    exact descend_or_stop_may _ _ _ _ _ _ _ _ _ _ _ h

theorem resolve_descend_may (cfg : BuilderConfig) (repo : Repository)
    (parent : CatalogNode) (ref : CatalogRef) (st : BuildStats)
    (p' : CatalogNode) (segs : List String) (child : CatalogNode)
    (refs : List CatalogRef) (st' : BuildStats)
    (h : process_ref_resolve cfg repo parent ref st = (p', some (segs, child, refs), st')) :
    may_descend cfg child = true := by
  unfold process_ref_resolve at h
  dsimp only at h
  split at h
  · simp at h
  · split at h
    · simp at h
    · split at h
      · simp at h
      · exact download_descend_may _ _ _ _ _ _ _ _ _ _ _ _ h

theorem psr_descend_may (cfg : BuilderConfig) (repo : Repository)
    (lookup : List (String × CatalogNode)) (parent : CatalogNode)
    (ref : CatalogRef) (st : BuildStats)
    (p' : CatalogNode) (segs : List String) (child : CatalogNode)
    (refs : List CatalogRef) (st' : BuildStats)
    (h : process_single_ref cfg repo lookup parent ref st =
      (p', some (segs, child, refs), st')) :
    may_descend cfg child = true := by
  unfold process_single_ref at h
  split at h
  · simp at h
  · split at h
    · split at h
      · simp at h
      · exact resolve_descend_may cfg repo parent ref st p' segs child refs st' h
    · exact resolve_descend_may cfg repo parent ref st p' segs child refs st' h

theorem may_descend_props (cfg : BuilderConfig) (child : CatalogNode) (md : Nat)
    (h : may_descend cfg child = true) :
    child.is_large = false ∧ (cfg.max_depth = some md → child.depth < md) := by
  unfold may_descend at h
  rw [Bool.and_eq_true] at h
  obtain ⟨h1, h2⟩ := h
  constructor
  · simpa using h1
  · intro hmd
    rw [hmd] at h2
    simpa using h2

/-- C5 (amended): when `max_depth` is set, the scheduler never descends
into a node whose depth reaches or exceeds `max_depth` — a descent unit
is produced only for a child with `depth < max_depth`; nodes with
`depth > max_depth` can still be created (and remain in the final tree)
when a single reference resolves through several intermediate path
segments below its parent. -/
theorem C5_amended_no_descent_at_max_depth (cfg : BuilderConfig) (repo : Repository)
    (lookup : List (String × CatalogNode)) (parent : CatalogNode)
    (ref : CatalogRef) (st : BuildStats)
    (p' : CatalogNode) (segs : List String) (child : CatalogNode)
    (refs : List CatalogRef) (st' : BuildStats) (md : Nat)
    (hmd : cfg.max_depth = some md)
    (h : process_single_ref cfg repo lookup parent ref st =
      (p', some (segs, child, refs), st')) :
    child.depth < md :=
  (may_descend_props cfg child md
    (psr_descend_may cfg repo lookup parent ref st p' segs child refs st' h)).2 hmd

/-- `max_depth = 3` with a direct one-segment reference. -/
def wit_depth_cfg : BuilderConfig := ⟨50, some 3, none, [], none⟩

def wit_depth_repo : Repository := ⟨"R", [("X", ⟨"X", 5, []⟩)], [], []⟩

set_option maxHeartbeats 2000000 in
theorem C5_amended_witness :
    (CatalogNode.mk "/x" "X" 5 15 1 [] false false false).depth < 3 :=
  C5_amended_no_descent_at_max_depth wit_depth_cfg wit_depth_repo [] demo_root
    ⟨"/x", "X", 5⟩ init_stats
    (.mk "/" "R" 10 10 0 [.mk "/x" "X" 5 15 1 [] false false false] false true false)
    ["/x"] (.mk "/x" "X" 5 15 1 [] false false false) []
    ⟨1, 5, 1, 0, 0, 0, 0, 0, 0, 0, [Event.fetch "X"]⟩ 3 rfl rfl

/-- C7 (amended): any node for which the scheduler produces a descent
unit has `is_large = false`: the crawl never fetches into or explores
below a node flagged large (including when the flag was set by the
post-fetch size correction), so a large node acquires no children from
its own exploration.  A large node can nevertheless end up with children
when another discovered reference resolves through its path as an
intermediate segment. -/
theorem C7_amended_no_descent_into_large (cfg : BuilderConfig) (repo : Repository)
    (lookup : List (String × CatalogNode)) (parent : CatalogNode)
    (ref : CatalogRef) (st : BuildStats)
    (p' : CatalogNode) (segs : List String) (child : CatalogNode)
    (refs : List CatalogRef) (st' : BuildStats)
    (h : process_single_ref cfg repo lookup parent ref st =
      (p', some (segs, child, refs), st')) :
    child.is_large = false :=
  (may_descend_props cfg child 0
    (psr_descend_may cfg repo lookup parent ref st p' segs child refs st' h)).1

def wit_large_repo : Repository := ⟨"R", [("Y", ⟨"Y", 5, []⟩)], [], []⟩

set_option maxHeartbeats 2000000 in
theorem C7_amended_witness :
    (CatalogNode.mk "/y" "Y" 5 15 1 [] false false false).is_large = false :=
  C7_amended_no_descent_into_large demo_cfg wit_large_repo [] demo_root
    ⟨"/y", "Y", 5⟩ init_stats
    (.mk "/" "R" 10 10 0 [.mk "/y" "Y" 5 15 1 [] false false false] false true false)
    ["/y"] (.mk "/y" "Y" 5 15 1 [] false false false) []
    ⟨1, 5, 1, 0, 0, 0, 0, 0, 0, 0, [Event.fetch "Y"]⟩ rfl

/-! ### Lemmas: the download counter never exceeds `max (max_catalogs) 1` -/

theorem gcs_downloads (repo : Repository) (ch : String) (s : Int) (st : BuildStats) :
    (get_catalog_size repo ch s st).2.catalogs_downloaded = st.catalogs_downloaded := by
  unfold get_catalog_size
  dsimp only
  split
  · rfl
  · split
    · rfl
    · rfl

theorem large_stop_update_downloads (b : Bool) (s : BuildStats) (cs : Int) :
    (if b = true then
      { s with large_catalogs_found := s.large_catalogs_found + 1,
               bytes_skipped := s.bytes_skipped + cs }
    else s).catalogs_downloaded = s.catalogs_downloaded := by
  cases b <;> rfl

theorem asc_downloads (cfg : BuilderConfig) (child : CatalogNode) (cat : Catalog)
    (st : BuildStats) :
    (apply_size_correction cfg child cat st).2.catalogs_downloaded =
      st.catalogs_downloaded := by
  unfold apply_size_correction
  dsimp only
  split
  · split
    · rfl
    · rfl
  · rfl

theorem dos_downloads (cfg : BuilderConfig) (segs : List String) (p3 child2 : CatalogNode)
    (nested : List CatalogRef) (st : BuildStats) :
    (descend_or_stop cfg segs p3 child2 nested st).2.2.catalogs_downloaded =
      st.catalogs_downloaded := by
  unfold descend_or_stop
  split
  · rfl
  · rfl

theorem download_dl_le (cfg : BuilderConfig) (repo : Repository) (ref : CatalogRef)
    (segs : List String) (p2 child_node : CatalogNode) (st : BuildStats) (mc : Nat)
    (hlt : st.catalogs_downloaded < mc) :
    (process_ref_download cfg repo ref segs p2 child_node st).2.2.catalogs_downloaded ≤ mc := by
  unfold process_ref_download
  dsimp only
  cases hr : repo.retrieve ref.hash with
  | none =>
    dsimp only
    omega
  | some cat =>
    dsimp only
    rw [dos_downloads, asc_downloads]
    dsimp only
    omega

theorem fss_downloads (cfg : BuilderConfig) (repo : Repository) (ref : CatalogRef)
    (st : BuildStats) :
    (found_size_stats cfg repo ref st).2.catalogs_downloaded = st.catalogs_downloaded := by
  unfold found_size_stats
  dsimp only
  split
  · dsimp only
    rw [gcs_downloads]
  · rw [gcs_downloads]

theorem resolve_dl_le (cfg : BuilderConfig) (repo : Repository) (parent : CatalogNode)
    (ref : CatalogRef) (st : BuildStats) (mc : Nat)
    (hmc : cfg.max_catalogs = some mc)
    (hle : st.catalogs_downloaded ≤ max mc 1) :
    (process_ref_resolve cfg repo parent ref st).2.2.catalogs_downloaded ≤ max mc 1 := by
  unfold process_ref_resolve
  dsimp only
  split
  · rw [fss_downloads]
    exact hle
  · split
    · rw [fss_downloads]
      exact hle
    · split
      · rw [fss_downloads]
        exact hle
      · rename_i hbud hlarge
        refine le_trans (download_dl_le cfg repo ref _ _ _ _ mc ?_) (le_max_left mc 1)
        rw [fss_downloads]
        unfold budget_exhausted at hbud
        rw [hmc] at hbud
        rw [fss_downloads] at hbud
        simpa using hbud

theorem psr_dl_le (cfg : BuilderConfig) (repo : Repository)
    (lookup : List (String × CatalogNode)) (parent : CatalogNode)
    (ref : CatalogRef) (st : BuildStats) (mc : Nat)
    (hmc : cfg.max_catalogs = some mc)
    (hle : st.catalogs_downloaded ≤ max mc 1) :
    (process_single_ref cfg repo lookup parent ref st).2.2.catalogs_downloaded ≤ max mc 1 := by
  unfold process_single_ref
  dsimp only
  split
  · exact hle
  · split
    · split
      · exact hle
      · exact resolve_dl_le cfg repo parent ref st mc hmc hle
    · exact resolve_dl_le cfg repo parent ref st mc hmc hle

theorem process_unit_dl_le
    (descend : CatalogNode → List CatalogRef → BuildStats → CatalogNode × BuildStats)
    (cfg : BuilderConfig) (repo : Repository) (lookup : List (String × CatalogNode))
    (mc : Nat) (hmc : cfg.max_catalogs = some mc)
    (hdesc : ∀ c rs s, s.catalogs_downloaded ≤ max mc 1 →
      (descend c rs s).2.catalogs_downloaded ≤ max mc 1) :
    ∀ (refs : List CatalogRef) (parent : CatalogNode) (st : BuildStats),
      st.catalogs_downloaded ≤ max mc 1 →
      (process_unit descend cfg repo lookup parent refs st).2.catalogs_downloaded ≤
        max mc 1 := by
  intro refs
  induction refs with
  | nil =>
    intro parent st h
    simpa [process_unit] using h
  | cons r rs ih =>
    intro parent st h
    have hstep := psr_dl_le cfg repo lookup parent r st mc hmc h
    simp only [process_unit]
    cases hd : (process_single_ref cfg repo lookup parent r st).2.1 with
    | none =>
      exact ih _ _ hstep
    | some u =>
      obtain ⟨segs, child, childRefs⟩ := u
      exact ih _ _ (hdesc child childRefs _ hstep)

theorem process_refs_dl_le (cfg : BuilderConfig) (repo : Repository)
    (lookup : List (String × CatalogNode)) (mc : Nat)
    (hmc : cfg.max_catalogs = some mc) :
    ∀ (fuel : Nat) (parent : CatalogNode) (refs : List CatalogRef) (st : BuildStats),
      st.catalogs_downloaded ≤ max mc 1 →
      (process_refs cfg repo lookup fuel parent refs st).2.catalogs_downloaded ≤
        max mc 1 := by
  intro fuel
  induction fuel with
  | zero =>
    intro parent refs st h
    simpa [process_refs] using h
  | succ n ih =>
    intro parent refs st h
    simp only [process_refs]
    exact process_unit_dl_le (process_refs cfg repo lookup n) cfg repo lookup mc hmc
      (fun c rs s hs => ih c rs s hs) refs parent st h

theorem build_main_dl_le (cfg : BuilderConfig) (repo : Repository) (fuel : Nat)
    (lookup : List (String × CatalogNode)) (t : CatalogNode) (st : BuildStats)
    (mc : Nat) (hmc : cfg.max_catalogs = some mc)
    (h : build_main cfg repo fuel lookup = some (t, st)) :
    st.catalogs_downloaded ≤ max mc 1 := by
  unfold build_main at h
  dsimp only at h
  cases hr : repo.retrieve repo.root_hash with
  | none => rw [hr] at h; cases h
  | some cat =>
    rw [hr] at h
    dsimp only at h
    simp only [Option.some.injEq, Prod.mk.injEq] at h
    obtain ⟨-, hst⟩ := h
    rw [← hst]
    split
    · apply process_refs_dl_le cfg repo lookup mc hmc
      split
      · dsimp only
        omega
      · dsimp only
        omega
    · split
      · dsimp only
        omega
      · dsimp only
        omega

/-- C8 (amended): when `max_catalogs` is set, the final
`catalogs_downloaded` counter never exceeds `max max_catalogs 1`: the
budget check stops every non-root download once the counter has reached
`max_catalogs`, but the root catalog itself is downloaded
unconditionally, so with `max_catalogs = 0` the count still reaches 1. -/
theorem C8_amended_download_budget (cfg : BuilderConfig) (repo : Repository)
    (fuel : Nat) (t : CatalogNode) (st : BuildStats) (mc : Nat)
    (hmc : cfg.max_catalogs = some mc)
    (h : build cfg repo fuel = some (t, st)) :
    st.catalogs_downloaded ≤ max mc 1 := by
  unfold build at h
  split at h
  · split at h
    · simp only [Option.some.injEq, Prod.mk.injEq] at h
      obtain ⟨-, hst⟩ := h
      rw [← hst]
      exact le_trans (Nat.zero_le _) (le_refl _)
    · exact build_main_dl_le cfg repo fuel _ t st mc hmc h
  · exact build_main_dl_le cfg repo fuel _ t st mc hmc h

/-- `max_catalogs = 5`. -/
def wit_budget_cfg : BuilderConfig := ⟨50, none, some 5, [], none⟩

set_option maxHeartbeats 2000000 in
theorem C8_amended_witness :
    (⟨1, 10, 1, 0, 0, 0, 0, 0, 0, 0, [Event.fetch "R"]⟩ : BuildStats).catalogs_downloaded ≤
      max 5 1 :=
  C8_amended_download_budget wit_budget_cfg demo_repo 1
    (.mk "/" "R" 10 10 0 [] false true false)
    ⟨1, 10, 1, 0, 0, 0, 0, 0, 0, 0, [Event.fetch "R"]⟩ 5 rfl rfl
